import Mathlib

/-!
Verification of the NF2 batched field-evaluation pipeline
(`nf2/evaluation/output.py` and the quality metrics of
`nf2/train/callback.py`) against its natural-language specification.

Real-valued (float) program quantities are embedded as exact rationals
(or reals where square roots are required); machine floats are modelled
exactly, with IEEE non-finite results (such as 0/0) represented through
`Option`.  The constant `np.pi` is carried as an explicit parameter
(field `piq` of `Scales`), since the algebraic claims hold for every
value of it.
-/

namespace NF2

/-- A 3-vector of rationals: one coordinate point or one field/current
sample (the trailing axis of size 3 in the numpy arrays). -/
abbrev Vec3 := ℚ × ℚ × ℚ

/-- The zero vector, the fill value of `np.zeros` used by
`SphericalOutput.load`. -/
def vzero : Vec3 := ((0 : ℚ), (0 : ℚ), (0 : ℚ))

/-- Scalar multiplication of a 3-vector. -/
def smul (a : ℚ) (v : Vec3) : Vec3 := (a * v.1, a * v.2.1, a * v.2.2)

/-- The scale context fixed at checkpoint-load time
(`BaseOutput.__init__`, output.py lines 15-33): field scale `G_per_dB`,
length scale `m_per_ds`, the speed of light `c`, the spatial
normalization `spatial_norm` (set to 1 in `__init__`), and `piq`, the
rational stand-in for the float constant `np.pi`. -/
structure Scales where
  G_per_dB : ℚ
  m_per_ds : ℚ
  c : ℚ
  spatial_norm : ℚ
  piq : ℚ

/-- Coordinate normalization `coords / self.spatial_norm`
(output.py line 38), applied componentwise. -/
def normCoord (s : Scales) (v : Vec3) : Vec3 :=
  (v.1 / s.spatial_norm, v.2.1 / s.spatial_norm, v.2.2 / s.spatial_norm)

/-- Field unit conversion `b = cube * self.G_per_dB`
(output.py line 60), applied componentwise. -/
def bScale (s : Scales) (v : Vec3) : Vec3 :=
  (v.1 * s.G_per_dB, v.2.1 * s.G_per_dB, v.2.2 * s.G_per_dB)

/-- Current-density unit conversion
`j = j_cube * self.G_per_dB / self.m_per_ds * self.c / (4 * np.pi)`
(output.py line 66), applied componentwise in the exact order the
source writes the operations. -/
def jScale (s : Scales) (v : Vec3) : Vec3 :=
  (v.1 * s.G_per_dB / s.m_per_ds * s.c / (4 * s.piq),
   v.2.1 * s.G_per_dB / s.m_per_ds * s.c / (4 * s.piq),
   v.2.2 * s.G_per_dB / s.m_per_ds * s.c / (4 * s.piq))

/-- Number of chunks `int(np.ceil(coords.shape[0] / batch_size))`
(output.py line 44), as the natural-number ceiling division. -/
def numBatches (bs n : ℕ) : ℕ := (n + bs - 1) / bs

/-- The consecutive chunks `coords[k * batch_size : (k + 1) * batch_size]`
for `k in range(numBatches)` (output.py lines 44-48). -/
def batches (bs : ℕ) (l : List α) : List (List α) :=
  (List.range (numBatches bs l.length)).map (fun k => (l.drop (k * bs)).take bs)

/-- Concatenation `torch.cat(list_of_chunks)` (output.py lines 58 and 64).
`torch.cat` raises a runtime error on an empty list of tensors, which the
embedding models as `none`. -/
def torchCat (ts : List (List α)) : Option (List α) :=
  if ts.isEmpty then none else some ts.flatten

/-- The dictionary returned by `BaseOutput.load_coords`: the field
samples under key `B` and, only when currents were requested, the
current-density samples under key `J` (output.py lines 62-67). -/
structure ModelOut where
  B : List Vec3
  J : Option (List Vec3)

/-- Embedding of `BaseOutput.load_coords` (output.py lines 35-74) on a
flattened list of coordinate points.  `model` is the per-point field
model `self.model` and `jmodel` the per-point current
`calculate_current` (autodifferentiated curl, a per-point function of
the coordinate); both are opaque callables per the spec.  The grid is
normalized, chunked into consecutive batches of at most `bs` points,
each chunk is evaluated, results are concatenated in chunk order and
unit-converted.  `none` models the run aborting (torch.cat on an empty
chunk list). -/
def load_coords (s : Scales) (model jmodel : Vec3 → Vec3) (bs : ℕ) (cc : Bool)
    (coords : List Vec3) : Option ModelOut :=
  let cs := coords.map (normCoord s)
  let bats := batches bs cs
  match torchCat (bats.map (List.map model)) with
  | none => none
  | some cube =>
    if cc then
      match torchCat (bats.map (List.map jmodel)) with
      | none => none
      | some jcube =>
        some { B := cube.map (bScale s), J := some (jcube.map (jScale s)) }
    else
      some { B := cube.map (bScale s), J := none }

/-- A list of zero points produces zero chunks. -/
theorem numBatches_zero (bs : ℕ) : numBatches bs 0 = 0 := by
  match bs with
  | 0 => rfl
  | b + 1 =>
    simp only [numBatches, Nat.zero_add]
    exact Nat.div_eq_of_lt (by omega)

/-- Chunking the empty list yields no chunks. -/
theorem batches_nil (bs : ℕ) : batches bs ([] : List α) = [] := by
  simp [batches, numBatches_zero]

/-- Chunking a nonempty list yields its first `bs` points followed by the
chunks of the rest. -/
theorem batches_cons {bs : ℕ} (hbs : 0 < bs) (l : List α) (hl : l ≠ []) :
    batches bs l = l.take bs :: batches bs (l.drop bs) := by
  have hn : 1 ≤ l.length := List.length_pos.mpr hl
  have hnum : numBatches bs l.length = (l.length - 1) / bs + 1 := by
    unfold numBatches
    rw [show l.length + bs - 1 = (l.length - 1) + bs by omega]
    exact Nat.add_div_right _ hbs
  have hnum' : numBatches bs (l.drop bs).length = (l.length - 1) / bs := by
    rw [List.length_drop]
    unfold numBatches
    rcases Nat.le_total bs l.length with h | h
    · rw [show l.length - bs + bs - 1 = l.length - 1 by omega]
    · rw [show l.length - bs = 0 by omega]
      rw [Nat.zero_add]
      rw [Nat.div_eq_of_lt (by omega), Nat.div_eq_of_lt (by omega)]
  unfold batches
  rw [hnum, hnum', List.range_succ_eq_map, List.map_cons]
  refine congrArg₂ _ (by simp) ?_
  rw [List.map_map]
  refine List.map_congr_left fun k _ => ?_
  show (l.drop (Nat.succ k * bs)).take bs = ((l.drop bs).drop (k * bs)).take bs
  rw [List.drop_drop, Nat.succ_mul, Nat.add_comm]

/-- Auxiliary: concatenating all chunks restores the original list
(strong induction on a length bound). -/
theorem batches_flatten_aux {bs : ℕ} (hbs : 0 < bs) :
    ∀ (n : ℕ) (l : List α), l.length ≤ n → (batches bs l).flatten = l
  | _, [], _ => by simp [batches_nil]
  | 0, a :: l, h => by simp at h
  | n + 1, a :: l, h => by
    rw [batches_cons hbs _ (by simp), List.flatten_cons,
      batches_flatten_aux hbs n ((a :: l).drop bs)
        (by simp only [List.length_drop, List.length_cons] at h ⊢; omega)]
    exact List.take_append_drop bs (a :: l)

/-- Concatenating all chunks restores the original list. -/
theorem batches_flatten {bs : ℕ} (hbs : 0 < bs) (l : List α) :
    (batches bs l).flatten = l :=
  batches_flatten_aux hbs l.length l le_rfl

/-- Every chunk holds at most `bs` points. -/
theorem batches_length_le (bs : ℕ) (l : List α) :
    ∀ c ∈ batches bs l, c.length ≤ bs := by
  intro c hc
  simp only [batches, List.mem_map] at hc
  obtain ⟨k, _, rfl⟩ := hc
  rw [List.length_take]
  exact min_le_left _ _

/-- A nonempty list yields a nonempty chunk list. -/
theorem batches_ne_nil {bs : ℕ} (hbs : 0 < bs) (l : List α) (hl : l ≠ []) :
    batches bs l ≠ [] := by
  rw [batches_cons hbs l hl]
  exact List.cons_ne_nil _ _

/-- Canonical form of `load_coords`: for a positive batch size the result
is independent of the chunking — every point is mapped through the model
and unit conversion in input order, and the empty grid aborts. -/
theorem load_coords_eq (s : Scales) (model jmodel : Vec3 → Vec3) {bs : ℕ}
    (hbs : 0 < bs) (cc : Bool) (coords : List Vec3) :
    load_coords s model jmodel bs cc coords =
      if coords = [] then none
      else
        some { B := ((coords.map (normCoord s)).map model).map (bScale s),
               J := if cc then
                      some (((coords.map (normCoord s)).map jmodel).map (jScale s))
                    else none } := by
  by_cases hc : coords = []
  · subst hc
    simp [load_coords, batches_nil, torchCat]
  · have hcs : coords.map (normCoord s) ≠ [] := by
      simpa using hc
    have hbat := batches_ne_nil hbs (coords.map (normCoord s)) hcs
    have hcat : ∀ f : Vec3 → Vec3,
        torchCat ((batches bs (coords.map (normCoord s))).map (List.map f)) =
          some ((coords.map (normCoord s)).map f) := by
      intro f
      unfold torchCat
      rw [if_neg (by simpa using hbat)]
      rw [← List.map_flatten, batches_flatten hbs]
    unfold load_coords
    rw [if_neg hc]
    simp only [hcat]
    cases cc <;> simp

/-- Claim C1 counterexample: for the empty coordinate grid (shape
`(0, 3)`, a valid grid of shape `S + (3,)` with `S = (0,)`),
`load_coords` does not return a field output at all — `torch.cat`
raises on the empty list of chunk results, modelled as `none`. -/
theorem load_coords_empty_grid_aborts :
    load_coords ⟨1, 1, 1, 1, 3⟩ (fun v => v) (fun _ => vzero) 4096 false [] = none := by
  simp [load_coords, batches_nil, torchCat]

/-- Claim C1 (amended): for every NONEMPTY input coordinate grid of shape
`S + (3,)` (flattened here to its list of `prod S ≥ 1` points) and
positive batch size, `load_coords` returns a field output `B` with one
3-vector per grid point (hence of shape `S + (3,)` after the reshape of
line 59), and when `compute_currents` is true also a current-density
output `J` of the same shape. -/
theorem load_coords_shape (s : Scales) (model jmodel : Vec3 → Vec3) {bs : ℕ}
    (hbs : 1 ≤ bs) (cc : Bool) (coords : List Vec3) (hne : coords ≠ []) :
    ∃ out : ModelOut, load_coords s model jmodel bs cc coords = some out ∧
      out.B.length = coords.length ∧
      (cc = true → ∃ js : List Vec3, out.J = some js ∧ js.length = coords.length) := by
  rw [load_coords_eq s model jmodel hbs cc coords, if_neg hne]
  refine ⟨_, rfl, by simp, fun hcc => ?_⟩
  subst hcc
  refine ⟨(coords.map (normCoord s)).map jmodel |>.map (jScale s), by simp, by simp⟩

/-- Witness for the amended claim C1 at a concrete three-point grid with
batch size 2 and currents requested. -/
theorem load_coords_shape_witness :
    ∃ out : ModelOut,
      load_coords ⟨1, 1, 1, 1, 3⟩ (fun v => v) (fun v => v) 2 true
        [((0 : ℚ), (0 : ℚ), (0 : ℚ)), (1, 2, 3), (5, 5, 5)] = some out ∧
      out.B.length = 3 ∧
      (true = true → ∃ js : List Vec3, out.J = some js ∧ js.length = 3) :=
  load_coords_shape ⟨1, 1, 1, 1, 3⟩ (fun v => v) (fun v => v) (by decide) true
    [((0 : ℚ), (0 : ℚ), (0 : ℚ)), (1, 2, 3), (5, 5, 5)] (by simp)

/-- Claim C2: for every coordinate set and any two batch sizes at least 1,
`load_coords` splits the flattened points into consecutive chunks of at
most `batch_size` points and concatenates the chunk results in input
order, so the two evaluations produce identical output for the same
deterministic model. -/
theorem load_coords_batch_invariant (s : Scales) (model jmodel : Vec3 → Vec3)
    (bs1 bs2 : ℕ) (cc : Bool) (coords : List Vec3)
    (h1 : 1 ≤ bs1) (h2 : 1 ≤ bs2) :
    (∀ c ∈ batches bs1 (coords.map (normCoord s)), c.length ≤ bs1) ∧
      load_coords s model jmodel bs1 cc coords =
        load_coords s model jmodel bs2 cc coords := by
  refine ⟨batches_length_le bs1 _, ?_⟩
  rw [load_coords_eq s model jmodel h1 cc coords,
    load_coords_eq s model jmodel h2 cc coords]

/-- Witness for claim C2: a concrete two-point set evaluated with batch
size 1 versus batch size 5. -/
theorem load_coords_batch_invariant_witness :
    (∀ c ∈ batches 1 ([((1 : ℚ), (0 : ℚ), (0 : ℚ)), (2, 3, 4)].map (normCoord ⟨2, 1, 1, 1, 3⟩)),
        c.length ≤ 1) ∧
      load_coords ⟨2, 1, 1, 1, 3⟩ (fun v => v) (fun v => v) 1 true
          [((1 : ℚ), (0 : ℚ), (0 : ℚ)), (2, 3, 4)] =
        load_coords ⟨2, 1, 1, 1, 3⟩ (fun v => v) (fun v => v) 5 true
          [((1 : ℚ), (0 : ℚ), (0 : ℚ)), (2, 3, 4)] :=
  load_coords_batch_invariant ⟨2, 1, 1, 1, 3⟩ (fun v => v) (fun v => v) 1 5 true
    [((1 : ℚ), (0 : ℚ), (0 : ℚ)), (2, 3, 4)] (by decide) (by decide)

/-- Claim C3: the conversion from normalized current density to physical
units multiplies the raw per-point value by exactly
`G_per_dB / m_per_ds * c * (1 / (4 * pi))` — field scale divided by
length scale, times the speed of light, times `1/(4π)` — and no other
factor. -/
theorem jScale_factor (s : Scales) (v : Vec3) :
    jScale s v = smul (s.G_per_dB / s.m_per_ds * s.c * (1 / (4 * s.piq))) v := by
  unfold jScale smul
  refine Prod.ext (by ring) (Prod.ext (by ring) (by ring))

/-- Floating-point modulo `x % y` of Python/numpy (result carries the
sign of `y`), as exact rational arithmetic: `x - y * floor (x / y)`. -/
def fmod (x y : ℚ) : ℚ := x - y * ⌊x / y⌋

/-- Embedding of the Coverage Mask condition of `SphericalOutput.load`
(output.py lines 159-170), pointwise: the point with spherical
coordinates `(r, lat, lon)` is selected when its radius lies in
`[rmin, rmax)` and its latitude wrapped modulo `π` and longitude wrapped
modulo `2π` lie in the window bounds wrapped the same way. -/
def sphericalMask (piq rmin rmax latmin latmax lonmin lonmax r lat lon : ℚ) : Bool :=
  decide (rmin ≤ r) && decide (r < rmax) &&
  decide (fmod latmin piq ≤ fmod lat piq) && decide (fmod lat piq < fmod latmax piq) &&
  decide (fmod lonmin (2 * piq) ≤ fmod lon (2 * piq)) &&
  decide (fmod lon (2 * piq) < fmod lonmax (2 * piq))

/-- The masked-region containment predicate in the words of the spec:
the point's spherical coordinates, after wrapping latitude modulo `π`
and longitude modulo `2π` (with the same wrap applied to the window
bounds), lie within the requested radius, latitude and longitude
window. -/
def windowContains (piq rmin rmax latmin latmax lonmin lonmax r lat lon : ℚ) : Prop :=
  (rmin ≤ r ∧ r < rmax) ∧
  (fmod latmin piq ≤ fmod lat piq ∧ fmod lat piq < fmod latmax piq) ∧
  (fmod lonmin (2 * piq) ≤ fmod lon (2 * piq) ∧
    fmod lon (2 * piq) < fmod lonmax (2 * piq))

/-- Claim C4: a lattice point is selected by the Coverage Mask if and
only if its wrap-normalized spherical coordinates lie within the
wrap-normalized radius/latitude/longitude window. -/
theorem sphericalMask_iff_windowContains
    (piq rmin rmax latmin latmax lonmin lonmax r lat lon : ℚ) :
    sphericalMask piq rmin rmax latmin latmax lonmin lonmax r lat lon = true ↔
      windowContains piq rmin rmax latmin latmax lonmin lonmax r lat lon := by
  simp only [sphericalMask, windowContains, Bool.and_eq_true, decide_eq_true_eq]
  tauto

/-- Python `int(...)` applied to a float: truncation toward zero. -/
def pyInt (q : ℚ) : ℤ := if 0 ≤ q then ⌊q⌋ else -⌊-q⌋

/-- Embedding of `np.linspace(lo, hi, n)`: `n` evenly spaced samples
from `lo` to `hi` inclusive; the empty list for `n = 0` and the single
sample `[lo]` for `n = 1`. -/
def linspace (lo hi : ℚ) (n : ℕ) : List ℚ :=
  if n = 0 then []
  else if n = 1 then [lo]
  else (List.range n).map (fun i : ℕ => lo + (i : ℚ) * (hi - lo) / ((n : ℚ) - 1))

/-- One lattice axis as built by `CartesianOutput.load_cube`
(output.py lines 97-100) and `SphericalOutput.load` (lines 154-157):
`np.linspace(lo, hi, int((hi - lo) * points_per_unit_length))`. -/
def axisSamples (lo hi ppu : ℚ) : List ℚ :=
  linspace lo hi (pyInt ((hi - lo) * ppu)).toNat

/-- The number of linspace samples is its count argument. -/
theorem linspace_length (lo hi : ℚ) (n : ℕ) : (linspace lo hi n).length = n := by
  unfold linspace
  split
  · simp [*]
  · split
    · simp [*]
    · simp only [List.length_map, List.length_range]

/-- Claim C5 counterexample: with `lo = 0`, `hi = 27/10` and one point
per unit length, the code's `int(...)` truncation yields 2 samples while
`round((max - min) * points_per_unit_length)` is 3; and a zero-width
axis (`lo = hi = 5`, 10 points per unit length) yields 0 samples, not a
single sample. -/
theorem axisSamples_not_round :
    (axisSamples 0 (27 / 10) 1).length = 2 ∧
      round (((27 : ℚ) / 10 - 0) * 1) = 3 ∧
      (axisSamples 5 5 10).length = 0 := by
  have hfloor : ⌊((27 : ℚ) / 10 - 0) * 1⌋ = 2 := by
    rw [Int.floor_eq_iff]
    norm_num
  have hround : round (((27 : ℚ) / 10 - 0) * 1) = 3 := by
    rw [round_eq, Int.floor_eq_iff]
    norm_num
  refine ⟨?_, hround, ?_⟩
  · unfold axisSamples pyInt
    rw [if_pos (by norm_num), hfloor]
    exact linspace_length _ _ _
  · unfold axisSamples pyInt
    norm_num [linspace_length]

/-- Claim C5 (amended): for every axis with `lo ≤ hi` and a nonnegative
resolution, the number of samples equals `int((max - min) *
points_per_unit_length)` truncated toward zero (the floor, for these
nonnegative widths) — not the rounding — and a zero-width axis yields
zero samples (an empty axis, silently), not one sample and not an
error. -/
theorem axisSamples_count (lo hi ppu : ℚ) (hle : lo ≤ hi) (hppu : 0 ≤ ppu) :
    (axisSamples lo hi ppu).length = (⌊(hi - lo) * ppu⌋).toNat ∧
      (axisSamples lo lo ppu).length = 0 := by
  have hnn : 0 ≤ (hi - lo) * ppu := mul_nonneg (by linarith) hppu
  constructor
  · unfold axisSamples pyInt
    rw [if_pos hnn]
    exact linspace_length _ _ _
  · unfold axisSamples pyInt
    norm_num [linspace_length]

/-- Witness for the amended claim C5 at `lo = 0`, `hi = 2`, one point
per unit length. -/
theorem axisSamples_count_witness :
    (axisSamples 0 2 1).length = (⌊((2 : ℚ) - 0) * 1⌋).toNat ∧
      (axisSamples 0 0 1).length = 0 :=
  axisSamples_count 0 2 1 (by norm_num) (by norm_num)

/-- Embedding of the in-place update `latitude_range += np.pi / 2 * u.rad`
of `SphericalOutput.load_spherical` (output.py line 126).  The
augmented assignment on an astropy `Quantity` (a numpy array subclass)
mutates the caller's array in place; this function gives the value the
caller's `latitude_range` argument holds AFTER the call. -/
def load_spherical_latitude_after (piq : ℚ) (latitude_range : ℚ × ℚ) : ℚ × ℚ :=
  (latitude_range.1 + piq / 2, latitude_range.2 + piq / 2)

/-- Claim C6 is violated by the code: after `load_spherical` returns,
the caller's `latitude_range` argument no longer holds the values it
held before the call — both bounds have been shifted by `π/2` in
place. -/
theorem load_spherical_mutates_latitude_range (piq : ℚ) (lr : ℚ × ℚ)
    (hpi : piq ≠ 0) : load_spherical_latitude_after piq lr ≠ lr := by
  intro h
  have h1 : lr.1 + piq / 2 = lr.1 := congrArg Prod.fst h
  exact hpi (by linarith)

/-- Witness for claim C6's violation at the concrete latitude range
`(0, 1)` with the stand-in `π = 3`. -/
theorem load_spherical_mutates_latitude_range_witness :
    load_spherical_latitude_after 3 (0, 1) ≠ (0, 1) :=
  load_spherical_mutates_latitude_range 3 (0, 1) (by norm_num)

/-- The branch condition of `BaseOutput.load_coords` (output.py lines
70-74): evaluation runs inside `torch.no_grad()` exactly when the
chosen branch is the `else` branch, i.e. when neither
`compute_currents` nor the model flag `self._requires_grad` holds. -/
def noGradMode (cc rg : Bool) : Bool := !(cc || rg)

/-- Per-chunk record of `coord.requires_grad = True` (output.py line
50), executed unconditionally for every chunk before the model call. -/
def chunkGradFlags (bs : ℕ) (coords : List Vec3) : List Bool :=
  (batches bs coords).map (fun _ => true)

/-- Claim C9: `load_coords` runs in no-gradient mode if and only if
`compute_currents` is false and the model does not require input
gradients; and whenever `compute_currents` is true, gradient tracking
is enabled on each chunk's coordinate input before the model call. -/
theorem load_coords_grad_mode (cc rg : Bool) (bs : ℕ) (coords : List Vec3) :
    (noGradMode cc rg = true ↔ (cc = false ∧ rg = false)) ∧
      (cc = true → ∀ f ∈ chunkGradFlags bs coords, f = true) := by
  constructor
  · cases cc <;> cases rg <;> simp [noGradMode]
  · intro _ f hf
    simp only [chunkGradFlags, List.mem_map] at hf
    obtain ⟨_, _, rfl⟩ := hf
    rfl

/-- Witness for claim C9 with currents requested on a one-point grid. -/
theorem load_coords_grad_mode_witness :
    (noGradMode true false = true ↔ (true = false ∧ false = false)) ∧
      (true = true → ∀ f ∈ chunkGradFlags 1 [vzero], f = true) :=
  load_coords_grad_mode true false 1 [vzero]

/-- A 3x3 matrix, as its three rows. -/
abbrev Mat3 := Vec3 × Vec3 × Vec3

/-- Matrix-vector product of a 3x3 matrix with a 3-vector. -/
def mulVec (m : Mat3) (v : Vec3) : Vec3 :=
  (m.1.1 * v.1 + m.1.2.1 * v.2.1 + m.1.2.2 * v.2.2,
   m.2.1.1 * v.1 + m.2.1.2.1 * v.2.1 + m.2.1.2.2 * v.2.2,
   m.2.2.1 * v.1 + m.2.2.2.1 * v.2.1 + m.2.2.2.2 * v.2.2)

/-- Rotating a list of vectors cellwise, the cell index starting at `k`:
cell `k + i` is rotated by the matrix `R (k + i)`. -/
def rotateFrom (R : ℕ → Mat3) (k : ℕ) : List Vec3 → List Vec3
  | [] => []
  | v :: vs => mulVec (R k) v :: rotateFrom R (k + 1) vs

/-- Modelled from the spec: `vector_cartesian_to_spherical` lives in
`nf2/data/util.py`, which is not under src/.  The spec (§4.2 and the
Spherical Frame Transform of §3) describes it as applying, at each
point, the per-point rotation relating the cartesian basis to the local
(radial, polar, azimuthal) basis at that point.  `R i` is that rotation
at dense-lattice cell `i` (a function of the cell's spherical
coordinates, kept abstract), applied cellwise to the vector array. -/
def vector_cartesian_to_spherical (R : ℕ → Mat3) (b : List Vec3) : List Vec3 :=
  rotateFrom R 0 b

/-- Dense scatter `arr = np.zeros(cube_shape + (3,)); arr[condition] = sub`
(output.py lines 177-178 and 182-183): cells where the mask holds
consume the evaluated values in order, every other cell keeps the zero
fill. -/
def scatterMasked : List Bool → List Vec3 → List Vec3
  | [], _ => []
  | true :: ms, v :: vs => v :: scatterMasked ms vs
  | true :: ms, [] => vzero :: scatterMasked ms []
  | false :: ms, vs => vzero :: scatterMasked ms vs

/-- Boolean-mask selection `coords[condition]` (output.py line 171). -/
def maskFilter (mask : List Bool) (l : List α) : List α :=
  (mask.zip l).filterMap (fun p => if p.1 then some p.2 else none)

/-- The Coverage Mask over a dense lattice: the mask condition applied
to the spherical coordinates of every cell (output.py lines 159-170). -/
def maskOf (piq rmin rmax latmin latmax lonmin lonmax : ℚ)
    (sph : List (ℚ × ℚ × ℚ)) : List Bool :=
  sph.map (fun p => sphericalMask piq rmin rmax latmin latmax lonmin lonmax p.1 p.2.1 p.2.2)

/-- The dictionary returned by `SphericalOutput.load` (output.py line
185): the dense cartesian-frame field `B`, its spherical-frame rotation
`B_rtp`, and the dense current density `J`. -/
structure SphResult where
  B : List Vec3
  B_rtp : List Vec3
  J : Option (List Vec3)

/-- Embedding of `SphericalOutput.load` (output.py lines 137-185)
downstream of lattice construction: the dense lattice cells are given
as cartesian points `denseCoords` together with their spherical
coordinates `sph` (produced by the external `cartesian_to_spherical` of
`nf2/data/util.py`).  The Coverage Mask selects the cells inside the
window, only those are evaluated — with `compute_currents=True`,
unconditionally — and the results are scattered back into dense
zero-filled arrays; the dense field array is additionally rotated to
the spherical frame. -/
def sphericalLoad (s : Scales) (model jmodel : Vec3 → Vec3) (R : ℕ → Mat3)
    (piq rmin rmax latmin latmax lonmin lonmax : ℚ)
    (denseCoords : List Vec3) (sph : List (ℚ × ℚ × ℚ)) (bs : ℕ) : Option SphResult :=
  match load_coords s model jmodel bs true
      (maskFilter (maskOf piq rmin rmax latmin latmax lonmin lonmax sph) denseCoords) with
  | none => none
  | some out =>
    some { B := scatterMasked (maskOf piq rmin rmax latmin latmax lonmin lonmax sph) out.B,
           B_rtp := vector_cartesian_to_spherical R
             (scatterMasked (maskOf piq rmin rmax latmin latmax lonmin lonmax sph) out.B),
           J := out.J.map (scatterMasked (maskOf piq rmin rmax latmin latmax lonmin lonmax sph)) }

/-- The dictionary returned by `CartesianOutput.load_cube` (output.py
line 109), restricted to the evaluated outputs. -/
structure CubeResult where
  B : List Vec3
  J : Option (List Vec3)

/-- The flattened `np.meshgrid(xs, ys, zs, indexing='ij')` lattice
(output.py lines 97-100): all coordinate triples in row-major order. -/
def meshgrid (xs ys zs : List ℚ) : List Vec3 :=
  xs.flatMap (fun x => ys.flatMap (fun y => zs.map (fun z => (x, y, z))))

/-- Embedding of `CartesianOutput.load_cube` (output.py lines 89-109):
builds the cartesian lattice from the per-axis coordinate ranges and
the resolution `pixel_per_ds`, and evaluates it through `load_coords`
with `compute_currents=True`, unconditionally. -/
def load_cube (s : Scales) (model jmodel : Vec3 → Vec3)
    (xr yr zr : ℚ × ℚ) (pixel_per_ds : ℚ) (bs : ℕ) : Option CubeResult :=
  (load_coords s model jmodel bs true
      (meshgrid (axisSamples xr.1 xr.2 pixel_per_ds)
                (axisSamples yr.1 yr.2 pixel_per_ds)
                (axisSamples zr.1 zr.2 pixel_per_ds))).map
    (fun out => { B := out.B, J := out.J })

/-- The scattered dense array has one cell per mask entry. -/
theorem scatterMasked_length (mask : List Bool) :
    ∀ vals, (scatterMasked mask vals).length = mask.length := by
  induction mask with
  | nil => intro vals; rfl
  | cons m ms ih =>
    intro vals
    cases m
    · simp [scatterMasked, ih]
    · cases vals
      · simp [scatterMasked, ih]
      · simp [scatterMasked, ih]

/-- A masked-out cell of the scattered dense array holds the zero fill. -/
theorem scatterMasked_getD (mask : List Bool) :
    ∀ (vals : List Vec3) (i : ℕ), mask.getD i true = false →
      (scatterMasked mask vals).getD i vzero = vzero := by
  induction mask with
  | nil => intro vals i h; simp [List.getD] at h
  | cons m ms ih =>
    intro vals i h
    cases i with
    | zero =>
      rw [List.getD_cons_zero] at h
      subst h
      cases vals <;> simp [scatterMasked, List.getD_cons_zero]
    | succ n =>
      rw [List.getD_cons_succ] at h
      cases m
      · cases vals <;> · rw [show scatterMasked (false :: ms) _ = vzero :: scatterMasked ms _ from rfl,
          List.getD_cons_succ]
                         exact ih _ n h
      · cases vals with
        | nil =>
          rw [show scatterMasked (true :: ms) [] = vzero :: scatterMasked ms [] from rfl,
            List.getD_cons_succ]
          exact ih [] n h
        | cons v vs =>
          rw [show scatterMasked (true :: ms) (v :: vs) = v :: scatterMasked ms vs from rfl,
            List.getD_cons_succ]
          exact ih vs n h

/-- A rotation maps the zero vector to the zero vector. -/
theorem mulVec_vzero (m : Mat3) : mulVec m vzero = vzero := by
  simp [mulVec, vzero]

/-- Cellwise rotation acts on the cell at index `i` by the matrix at the
shifted index. -/
theorem rotateFrom_getD (R : ℕ → Mat3) :
    ∀ (l : List Vec3) (k i : ℕ), i < l.length →
      (rotateFrom R k l).getD i vzero = mulVec (R (k + i)) (l.getD i vzero) := by
  intro l
  induction l with
  | nil => intro k i h; simp at h
  | cons v vs ih =>
    intro k i h
    cases i with
    | zero => simp [rotateFrom, List.getD_cons_zero]
    | succ n =>
      rw [show rotateFrom R k (v :: vs) = mulVec (R k) v :: rotateFrom R (k + 1) vs from rfl,
        List.getD_cons_succ, List.getD_cons_succ,
        ih (k + 1) n (by simpa using h)]
      congr 2
      omega

/-- An index where `getD` falls back to a default the list does not
contain must be in range. -/
theorem getD_ne_default_lt {l : List Bool} {i : ℕ} (h : l.getD i true = false) :
    i < l.length := by
  by_contra hge
  rw [List.getD_eq_default _ _ (by omega)] at h
  exact Bool.noConfusion h

/-- Claim C7: for a masked-region evaluation, every dense output cell
outside the Coverage Mask equals exactly zero — in the cartesian-frame
`B` array, in the spherically rotated `B_rtp` array produced from it,
and in the dense `J` array. -/
theorem sphericalLoad_outside_mask_zero (s : Scales) (model jmodel : Vec3 → Vec3)
    (R : ℕ → Mat3) (piq rmin rmax latmin latmax lonmin lonmax : ℚ)
    (denseCoords : List Vec3) (sph : List (ℚ × ℚ × ℚ)) (bs : ℕ) (res : SphResult)
    (hres : sphericalLoad s model jmodel R piq rmin rmax latmin latmax lonmin lonmax
      denseCoords sph bs = some res)
    (i : ℕ)
    (hmask : (maskOf piq rmin rmax latmin latmax lonmin lonmax sph).getD i true = false) :
    res.B.length = (maskOf piq rmin rmax latmin latmax lonmin lonmax sph).length ∧
      res.B.getD i vzero = vzero ∧
      res.B_rtp.getD i vzero = vzero ∧
      ∀ js : List Vec3, res.J = some js → js.getD i vzero = vzero := by
  unfold sphericalLoad at hres
  rcases hlc : load_coords s model jmodel bs true
      (maskFilter (maskOf piq rmin rmax latmin latmax lonmin lonmax sph) denseCoords) with _ | out
  · rw [hlc] at hres
    exact absurd hres (by simp)
  · rw [hlc] at hres
    have hi : i < (maskOf piq rmin rmax latmin latmax lonmin lonmax sph).length :=
      getD_ne_default_lt hmask
    cases hres
    refine ⟨scatterMasked_length _ _, scatterMasked_getD _ _ _ hmask, ?_, ?_⟩
    · unfold vector_cartesian_to_spherical
      rw [rotateFrom_getD R _ 0 i (by rw [scatterMasked_length]; exact hi),
        scatterMasked_getD _ _ _ hmask, mulVec_vzero]
    · intro js hjs
      rcases Option.map_eq_some'.mp hjs with ⟨jl, _, rfl⟩
      exact scatterMasked_getD _ _ _ hmask

/-- A successful `load_coords` call with currents requested always
carries a `J` entry. -/
theorem load_coords_currents_isSome {s : Scales} {m jm : Vec3 → Vec3} {bs : ℕ}
    {l : List Vec3} {out : ModelOut}
    (h : load_coords s m jm bs true l = some out) : out.J.isSome := by
  simp only [load_coords] at h
  rcases h1 : torchCat ((batches bs (l.map (normCoord s))).map (List.map m)) with _ | cube
  · rw [h1] at h
    exact absurd h (by simp)
  · rw [h1] at h
    rcases h2 : torchCat ((batches bs (l.map (normCoord s))).map (List.map jm)) with _ | jcube
    · rw [h2] at h
      exact absurd h (by simp)
    · rw [h2] at h
      cases h
      rfl

/-- The identity rotation, used by the concrete witnesses. -/
def idMat : Mat3 := (((1 : ℚ), (0 : ℚ), (0 : ℚ)), ((0 : ℚ), (1 : ℚ), (0 : ℚ)),
  ((0 : ℚ), (0 : ℚ), (1 : ℚ)))

/-- Concrete Coverage Mask evaluation: of the two lattice cells with
spherical coordinates `(1, 0, 0)` and `(100, 0, 0)`, only the first
lies in the window with radii `[0, 10)`. -/
theorem maskOf_example :
    maskOf 4 0 10 0 3 0 7 [((1 : ℚ), (0 : ℚ), (0 : ℚ)), (100, 0, 0)] = [true, false] := by
  have h1 : sphericalMask 4 0 10 0 3 0 7 1 0 0 = true := by
    simp only [sphericalMask, Bool.and_eq_true, decide_eq_true_eq]
    norm_num [fmod]
  have h2 : sphericalMask 4 0 10 0 3 0 7 100 0 0 = false := by
    have h : decide ((100 : ℚ) < 10) = false := decide_eq_false (by norm_num)
    simp only [sphericalMask, h, Bool.and_false, Bool.false_and]
  simp only [maskOf, List.map_cons, List.map_nil, h1, h2]

/-- Concrete single-point evaluation of `load_coords` with currents. -/
theorem load_coords_example :
    load_coords ⟨1, 1, 1, 1, 1⟩ (fun v => v) (fun _ => vzero) 1 true
      [((1 : ℚ), (0 : ℚ), (0 : ℚ))] =
      some ⟨[((1 : ℚ), (0 : ℚ), (0 : ℚ))], some [vzero]⟩ := by
  rw [load_coords_eq _ _ _ (by norm_num) true _, if_neg (by simp)]
  norm_num [normCoord, bScale, jScale, vzero]

/-- Concrete masked-region evaluation: two dense cells, the second
outside the window; the evaluated cell scatters back, the other stays
zero. -/
theorem sphericalLoad_example :
    sphericalLoad ⟨1, 1, 1, 1, 1⟩ (fun v => v) (fun _ => vzero) (fun _ => idMat)
      4 0 10 0 3 0 7 [((1 : ℚ), (0 : ℚ), (0 : ℚ)), (2, 0, 0)]
      [((1 : ℚ), (0 : ℚ), (0 : ℚ)), (100, 0, 0)] 1 =
      some ⟨[((1 : ℚ), (0 : ℚ), (0 : ℚ)), vzero],
            [((1 : ℚ), (0 : ℚ), (0 : ℚ)), vzero],
            some [vzero, vzero]⟩ := by
  unfold sphericalLoad
  rw [maskOf_example]
  rw [show maskFilter [true, false] [((1 : ℚ), (0 : ℚ), (0 : ℚ)), (2, 0, 0)] =
    [((1 : ℚ), (0 : ℚ), (0 : ℚ))] from rfl]
  rw [load_coords_example]
  simp only [scatterMasked, vector_cartesian_to_spherical, rotateFrom, Option.map_some']
  norm_num [mulVec, idMat, vzero]

/-- Witness for claim C7 at the concrete two-cell masked-region
evaluation: the second cell (outside the window) is zero in `B`,
`B_rtp` and `J`. -/
theorem sphericalLoad_outside_mask_zero_witness :
    (⟨[((1 : ℚ), (0 : ℚ), (0 : ℚ)), vzero], [((1 : ℚ), (0 : ℚ), (0 : ℚ)), vzero],
        some [vzero, vzero]⟩ : SphResult).B.length =
        (maskOf 4 0 10 0 3 0 7 [((1 : ℚ), (0 : ℚ), (0 : ℚ)), (100, 0, 0)]).length ∧
      (⟨[((1 : ℚ), (0 : ℚ), (0 : ℚ)), vzero], [((1 : ℚ), (0 : ℚ), (0 : ℚ)), vzero],
        some [vzero, vzero]⟩ : SphResult).B.getD 1 vzero = vzero ∧
      (⟨[((1 : ℚ), (0 : ℚ), (0 : ℚ)), vzero], [((1 : ℚ), (0 : ℚ), (0 : ℚ)), vzero],
        some [vzero, vzero]⟩ : SphResult).B_rtp.getD 1 vzero = vzero ∧
      ∀ js : List Vec3,
        (⟨[((1 : ℚ), (0 : ℚ), (0 : ℚ)), vzero], [((1 : ℚ), (0 : ℚ), (0 : ℚ)), vzero],
          some [vzero, vzero]⟩ : SphResult).J = some js → js.getD 1 vzero = vzero :=
  sphericalLoad_outside_mask_zero ⟨1, 1, 1, 1, 1⟩ (fun v => v) (fun _ => vzero)
    (fun _ => idMat) 4 0 10 0 3 0 7 [((1 : ℚ), (0 : ℚ), (0 : ℚ)), (2, 0, 0)]
    [((1 : ℚ), (0 : ℚ), (0 : ℚ)), (100, 0, 0)] 1 _ sphericalLoad_example 1
    (by rw [maskOf_example]; rfl)

/-- Concrete one-point cube evaluation: unit ranges at one point per
unit length give the single lattice point `(0, 0, 0)`. -/
theorem load_cube_example :
    load_cube ⟨1, 1, 1, 1, 1⟩ (fun v => v) (fun _ => vzero) (0, 1) (0, 1) (0, 1) 1 1 =
      some ⟨[vzero], some [vzero]⟩ := by
  unfold load_cube
  have hax : axisSamples 0 1 1 = [0] := by
    unfold axisSamples pyInt
    norm_num [linspace]
  rw [hax]
  rw [show meshgrid [(0 : ℚ)] [(0 : ℚ)] [(0 : ℚ)] = [((0 : ℚ), (0 : ℚ), (0 : ℚ))] from rfl]
  rw [load_coords_eq _ _ _ (by norm_num) true _, if_neg (by simp)]
  norm_num [normCoord, bScale, jScale, vzero]

/-- Claim C10: the cube sampler and the masked-region sampler always
request current-density computation against the Batched Evaluator, so
every result they return includes a `J` entry; no caller parameter of
the embedded samplers can disable it. -/
theorem samplers_always_compute_currents
    (s : Scales) (model jmodel : Vec3 → Vec3) (R : ℕ → Mat3)
    (xr yr zr : ℚ × ℚ) (ppu : ℚ)
    (piq rmin rmax latmin latmax lonmin lonmax : ℚ)
    (denseCoords : List Vec3) (sph : List (ℚ × ℚ × ℚ)) (bs bs2 : ℕ)
    (resC : CubeResult) (resS : SphResult)
    (hc : load_cube s model jmodel xr yr zr ppu bs = some resC)
    (hs : sphericalLoad s model jmodel R piq rmin rmax latmin latmax lonmin lonmax
      denseCoords sph bs2 = some resS) :
    resC.J.isSome ∧ resS.J.isSome := by
  constructor
  · unfold load_cube at hc
    rcases Option.map_eq_some'.mp hc with ⟨out, hout, rfl⟩
    exact load_coords_currents_isSome hout
  · unfold sphericalLoad at hs
    rcases hlc : load_coords s model jmodel bs2 true
        (maskFilter (maskOf piq rmin rmax latmin latmax lonmin lonmax sph) denseCoords)
      with _ | out
    · rw [hlc] at hs
      exact absurd hs (by simp)
    · rw [hlc] at hs
      cases hs
      simpa using load_coords_currents_isSome hlc

/-- Witness for claim C10: the concrete cube and masked-region
evaluations above both return a `J` entry. -/
theorem samplers_always_compute_currents_witness :
    (⟨[vzero], some [vzero]⟩ : CubeResult).J.isSome ∧
      (⟨[((1 : ℚ), (0 : ℚ), (0 : ℚ)), vzero], [((1 : ℚ), (0 : ℚ), (0 : ℚ)), vzero],
        some [vzero, vzero]⟩ : SphResult).J.isSome :=
  samplers_always_compute_currents ⟨1, 1, 1, 1, 1⟩ (fun v => v) (fun _ => vzero)
    (fun _ => idMat) (0, 1) (0, 1) (0, 1) 1 4 0 10 0 3 0 7
    [((1 : ℚ), (0 : ℚ), (0 : ℚ)), (2, 0, 0)] [((1 : ℚ), (0 : ℚ), (0 : ℚ)), (100, 0, 0)]
    1 1 _ _ load_cube_example sphericalLoad_example

/-- A 3-vector of reals, for the quality metrics of
`MetricsCallback.on_validation_epoch_end` (callback.py lines 266-295),
where square roots require leaving ℚ. -/
abbrev Vec3R := ℝ × ℝ × ℝ

/-- Euclidean norm `torch.norm(v, dim=-1)` of one sample. -/
noncomputable def rnorm (v : Vec3R) : ℝ := Real.sqrt (v.1 ^ 2 + v.2.1 ^ 2 + v.2.2 ^ 2)

/-- Cross product `torch.cross(u, v, dim=-1)` of one sample pair. -/
noncomputable def crossVec (u v : Vec3R) : Vec3R :=
  (u.2.1 * v.2.2 - u.2.2 * v.2.1,
   u.2.2 * v.1 - u.1 * v.2.2,
   u.1 * v.2.1 - u.2.1 * v.1)

/-- IEEE float division with a zero denominator gives a non-finite
result (NaN for `0/0`, the case exercised here), modelled as `none`;
a nonzero denominator gives the exact quotient. -/
noncomputable def fdiv (x y : ℝ) : Option ℝ := if y = 0 then none else some (x / y)

/-- NaN-propagating product with a finite weight (IEEE: `NaN * w` is
NaN, even for `w = 0`). -/
noncomputable def omul (a : Option ℝ) (w : ℝ) : Option ℝ := a.map (fun x => x * w)

/-- NaN-propagating addition (IEEE: an addition with a NaN operand is
NaN). -/
noncomputable def oadd : Option ℝ → Option ℝ → Option ℝ
  | some x, some y => some (x + y)
  | _, _ => none

/-- NaN-propagating sum of per-point terms (IEEE: a sum with a NaN
term is NaN). -/
noncomputable def osum (l : List (Option ℝ)) : Option ℝ := l.foldr oadd (some 0)

/-- The stabilizing constant `1e-7` of callback.py. -/
noncomputable def eps7 : ℝ := 1 / 10 ^ 7

/-- Embedding of the current-weighted misalignment angle `theta_J`
(callback.py lines 276-282): per point `sigma = |J×B| / (|B|·|J|)` —
with no stabilizer on this denominator — then the current-magnitude
weighted average, clipping to `[-1 + 1e-7, 1 - 1e-7]`, `arcsin`, and
conversion to degrees.  A `none` value is a non-finite (NaN) result
propagating through the pipeline. -/
noncomputable def theta_J (bs js : List Vec3R) : Option ℝ :=
  let sigmas := (bs.zip js).map
    (fun p => fdiv (rnorm (crossVec p.2 p.1)) (rnorm p.1 * rnorm p.2))
  let weights := js.map rnorm
  let num := osum ((sigmas.zip weights).map (fun p => omul p.1 p.2))
  let angle := num.bind (fun a => fdiv a weights.sum)
  angle.map (fun a => Real.arcsin (max (-1 + eps7) (min a (1 - eps7))) * (180 / Real.pi))

/-- Embedding of the force-free consistency score `ff_loss`
(callback.py lines 286-290): per point `|J×B| / (|B| + 1e-7)`,
averaged over the samples. -/
noncomputable def ff_loss (bs js : List Vec3R) : ℝ :=
  ((bs.zip js).map (fun p => rnorm (crossVec p.2 p.1) / (rnorm p.1 + eps7))).sum /
    ((bs.zip js).length : ℝ)

/-- Claim C8 is violated by the code for the misalignment angle: on the
single sample `B = (1,0,0)`, `J = (0,0,0)` (current density identically
zero), the force-free score evaluates to zero as claimed, but the
per-point ratio `|J×B| / (|B|·|J|)` is the IEEE division `0/0`
(callback.py line 277 has no stabilizer on this denominator), so
`theta_J` evaluates to NaN — non-finite, modelled `none` — and not to
zero. -/
theorem theta_J_nan_when_currents_zero :
    ff_loss [((1 : ℝ), 0, 0)] [((0 : ℝ), 0, 0)] = 0 ∧
      theta_J [((1 : ℝ), 0, 0)] [((0 : ℝ), 0, 0)] = none := by
  constructor
  · norm_num [ff_loss, crossVec, rnorm, eps7, Real.sqrt_zero]
  · norm_num [theta_J, crossVec, rnorm, fdiv, omul, osum, oadd, Real.sqrt_zero, Real.sqrt_one]

end NF2
